import Mathlib

/-!
Verification development for the wow-renovate-data repository.

The JavaScript sources are shallowly embedded as Lean definitions:
strings are `String`, JS numbers used as integers are `Int`/`Nat`,
`null`/`undefined`/absent values are `Option`, JS objects used as
string-keyed dictionaries are association lists (`JsObj`) with
JavaScript property-order semantics (array-index-like keys first in
ascending numeric order, then the remaining keys in insertion order),
and `Array.prototype.sort` (stable since ES2019) is embedded as a
stable insertion sort driven by the source comparator's sign.
-/

namespace WowData

/-! ### Embeddings of JavaScript primitives -/

/-- Longest prefix of decimal digits of a character list, with the rest. -/
def digitRun : List Char → List Char × List Char
  | [] => ([], [])
  | c :: cs =>
    if c.isDigit then
      let p := digitRun cs
      (c :: p.1, p.2)
    else ([], c :: cs)

/-- Decimal value of a list of digit characters (most significant first). -/
def digitsToNat (ds : List Char) : Nat :=
  ds.foldl (fun a c => 10 * a + (c.toNat - 48)) 0

/-- Embedding of JavaScript `parseInt(s, 10)`: skip leading whitespace, read an
optional sign, then the longest prefix of decimal digits; `none` models `NaN`
(no digit found). -/
def jsParseInt (s : String) : Option Int :=
  match s.data.dropWhile (·.isWhitespace) with
  | '-' :: rest =>
    let p := digitRun rest
    if p.1 = [] then none else some (-(digitsToNat p.1 : Int))
  | '+' :: rest =>
    let p := digitRun rest
    if p.1 = [] then none else some ((digitsToNat p.1 : Int))
  | rest =>
    let p := digitRun rest
    if p.1 = [] then none else some ((digitsToNat p.1 : Int))

/-- Embedding of JavaScript `s.padStart(2, "0")`. -/
def padStart2 (s : String) : String :=
  if 2 ≤ s.length then s else String.mk (List.replicate (2 - s.length) '0') ++ s

/-! ### VersionParser (src/version-parser.js) -/

/-- Matcher for the regex `(\d+)\.(\d+)\.(\d+)` anchored at the start of the
character list.  Each `\d+` is greedy; since a shorter digit run would be
followed by a digit (never by the required dot), the greedy maximal run is the
unique candidate, so this deterministic function is faithful to the
backtracking regex engine. -/
def matchVersionAt (cs : List Char) : Option (List Char × List Char × List Char) :=
  let p1 := digitRun cs
  if p1.1 = [] then none else
  match p1.2 with
  | '.' :: r2 =>
    let p2 := digitRun r2
    if p2.1 = [] then none else
    match p2.2 with
    | '.' :: r4 =>
      let p3 := digitRun r4
      if p3.1 = [] then none else some (p1.1, p2.1, p3.1)
    | _ => none
  | _ => none

/-- Leftmost match of `(\d+)\.(\d+)\.(\d+)` in a character list, as performed
by JavaScript `String.prototype.match` with a non-global regex. -/
def firstVersionMatch : List Char → Option (List Char × List Char × List Char)
  | [] => none
  | c :: cs =>
    match matchVersionAt (c :: cs) with
    | some m => some m
    | none => firstVersionMatch cs

/-- `VersionParser.parseInterfaceVersion` (src/version-parser.js):
`versionName.match(/(\d+)\.(\d+)\.(\d+)/)`, then
`major + minor.padStart(2,'0') + patch.padStart(2,'0')`. -/
def parseInterfaceVersion (versionName : String) : Option String :=
  match firstVersionMatch versionName.data with
  | none => none
  | some (major, minor, patch) =>
    some (String.mk major ++ padStart2 (String.mk minor) ++ padStart2 (String.mk patch))

/-- A flattened CurseForge version record (output of `getAllWowVersions`). -/
structure CurseForgeVersion where
  name : String
  type : Int
  variant : String
  versionTypeName : String
  versionTypeSlug : String
deriving Repr, DecidableEq

/-- A parsed version record (element of the persisted `versions` array). -/
structure ParsedVersion where
  version : String
  name : String
  variant : String
  gameVersionTypeId : Int
  versionTypeName : String
  versionTypeSlug : String
deriving Repr, DecidableEq

/-- `VersionParser.parseVersion`. -/
def parseVersion (curseforgeVersion : CurseForgeVersion) : Option ParsedVersion :=
  match parseInterfaceVersion curseforgeVersion.name with
  | none => none
  | some interfaceVersion =>
    some { version := interfaceVersion
           name := curseforgeVersion.name
           variant := curseforgeVersion.variant
           gameVersionTypeId := curseforgeVersion.type
           versionTypeName := curseforgeVersion.versionTypeName
           versionTypeSlug := curseforgeVersion.versionTypeSlug }

/-- `VersionParser.parseVersions`: map then filter out the `null` results. -/
def parseVersions (curseforgeVersions : List CurseForgeVersion) : List ParsedVersion :=
  (curseforgeVersions.map parseVersion).filterMap id

/-- Splitting a character list at every `'.'` (the behavior of JavaScript
`String.prototype.split('.')`: an empty string yields `[""]`, adjacent dots
yield empty segments). -/
def splitOnDot : List Char → List (List Char)
  | [] => [[]]
  | c :: cs =>
    if c = '.' then [] :: splitOnDot cs
    else
      match splitOnDot cs with
      | [] => [[c]]
      | s :: rest => (c :: s) :: rest

/-- Embedding of `versionString.split('.')`. -/
def jsSplitOnDot (s : String) : List String :=
  (splitOnDot s.data).map String.mk

/-- The segment `parts[i] || '0'` of a split version string: a missing or
empty (falsy) segment defaults to `"0"`. -/
def segmentOrZero (parts : List String) (i : Nat) : String :=
  match parts.get? i with
  | some s => if s = "" then "0" else s
  | none => "0"

/-- `VersionParser.parseVersionToNumber`: split on `.`, `parseInt` the first
three segments (defaulting to `'0'`), return `major*10000 + minor*100 + patch`.
`none` models the `NaN` result. -/
def parseVersionToNumber (versionString : String) : Option Int :=
  let parts := jsSplitOnDot versionString
  match jsParseInt (segmentOrZero parts 0), jsParseInt (segmentOrZero parts 1),
        jsParseInt (segmentOrZero parts 2) with
  | some major, some minor, some patch => some (major * 10000 + minor * 100 + patch)
  | _, _, _ => none

/-! ### JavaScript objects as association lists -/

/-- A JavaScript object used as a string-keyed dictionary, in insertion order.
Property assignment keeps the position of an existing key. -/
abbrev JsObj (α : Type) := List (String × α)

/-- `o[k]`: value of a property, if present. -/
def jsGet {α : Type} (o : JsObj α) (k : String) : Option α :=
  match o with
  | [] => none
  | p :: rest => if p.1 = k then some p.2 else jsGet rest k

/-- `o[k] = v`: replace the value in place if the key exists, else append. -/
def jsSet {α : Type} (o : JsObj α) (k : String) (v : α) : JsObj α :=
  match o with
  | [] => [(k, v)]
  | p :: rest => if p.1 = k then (k, v) :: rest else p :: jsSet rest k v

/-- `(o[k] = o[k] or []).push(v)`: append `v` to the bucket stored at `k`,
creating the bucket at the end of the object if it does not exist. -/
def jsPushBucket {α : Type} (o : JsObj (List α)) (k : String) (v : α) : JsObj (List α) :=
  match o with
  | [] => [(k, [v])]
  | p :: rest => if p.1 = k then (p.1, p.2 ++ [v]) :: rest else p :: jsPushBucket rest k v

/-- Whether a string is a canonical array-index property key (all digits, no
leading zero except `"0"` itself, value below `2^32 - 1`); such keys are
enumerated first, in ascending numeric order. -/
def isArrayIndexKey (s : String) : Bool :=
  !s.data.isEmpty && s.data.all (·.isDigit) &&
    (s = "0" || s.data.head? ≠ some '0') && digitsToNat s.data < 4294967295

/-- Numeric value of a property key (used to order array-index keys). -/
def keyNat (s : String) : Nat := digitsToNat s.data

/-- Stable insertion (ascending by a `Nat` key) of an element that precedes
the elements of the list in the original order. -/
def insertAscBy {α : Type} (key : α → Nat) (a : α) : List α → List α
  | [] => [a]
  | b :: l => if key b < key a then b :: insertAscBy key a l else a :: b :: l

/-- Stable sort, ascending by a `Nat` key. -/
def sortAscBy {α : Type} (key : α → Nat) : List α → List α
  | [] => []
  | a :: l => insertAscBy key a (sortAscBy key l)

/-- `Object.entries(o)` (also the order of `Object.keys` and of
`JSON.stringify`): array-index keys first in ascending numeric order, then
the remaining keys in insertion order. -/
def jsEntries {α : Type} (o : JsObj α) : List (String × α) :=
  sortAscBy (fun p => keyNat p.1) (o.filter (fun p => isArrayIndexKey p.1))
    ++ o.filter (fun p => !isArrayIndexKey p.1)

/-- Comparator sign `key a - key b > 0` of the descending sort comparators
`(a, b) => keyOf(b) - keyOf(a)`; a `none` key models `NaN`, for which the
ECMAScript `SortCompare` treats the comparator result as `+0` (equal). -/
def optGT : Option Int → Option Int → Bool
  | some a, some b => b < a
  | _, _ => false

/-- Stable insertion (descending by an optional `Int` key) of an element that
precedes the elements of the list in the original order. -/
def insertDescBy {α : Type} (key : α → Option Int) (a : α) : List α → List α
  | [] => [a]
  | b :: l => if optGT (key b) (key a) then b :: insertDescBy key a l else a :: b :: l

/-- Stable sort, descending by an optional `Int` key: the embedding of
`arr.sort((a, b) => keyOf(b) - keyOf(a))`. -/
def sortDescBy {α : Type} (key : α → Option Int) : List α → List α
  | [] => []
  | a :: l => insertDescBy key a (sortDescBy key l)

/-- Map with the element index, as `Array.prototype.forEach` provides it. -/
def mapWithIndexFrom {α β : Type} (f : Nat → α → β) : Nat → List α → List β
  | _, [] => []
  | i, a :: l => f i a :: mapWithIndexFrom f (i + 1) l

/-- Map with the element index starting at `0`. -/
def mapWithIndex {α β : Type} (f : Nat → α → β) (l : List α) : List β :=
  mapWithIndexFrom f 0 l

/-! ### JSON serialization (JSON.stringify on the shapes the code compares) -/

/-- Hexadecimal digit character. -/
def hexDigit (n : Nat) : Char :=
  if n < 10 then Char.ofNat (48 + n) else Char.ofNat (87 + n)

/-- JSON escaping of one character. -/
def jsonEscapeChar (c : Char) : String :=
  if c = '"' then "\\\""
  else if c = '\\' then "\\\\"
  else if c = '\n' then "\\n"
  else if c = '\r' then "\\r"
  else if c = '\t' then "\\t"
  else if c.toNat < 32 then
    "\\u00" ++ String.mk [hexDigit (c.toNat / 16), hexDigit (c.toNat % 16)]
  else String.singleton c

/-- JSON string literal. -/
def jsonStr (s : String) : String :=
  "\"" ++ String.join (s.data.map jsonEscapeChar) ++ "\""

/-! ### VersionTypeCatalog (the hardcoded versionTypeMap of the client) -/

/-- One entry of the hardcoded `versionTypeMap`. -/
structure VersionType where
  id : Int
  name : String
  slug : String
  variant : String
deriving Repr, DecidableEq

/-- Lookup in the hardcoded six-entry `versionTypeMap` of `CurseForgeClient`. -/
def versionTypeMap (typeId : Int) : Option VersionType :=
  if typeId = 67408 then
    some ⟨67408, "WoW Classic Era", "wow-classic-era", "classic_era"⟩
  else if typeId = 73246 then
    some ⟨73246, "WoW Burning Crusade Classic", "wow-burning-crusade-classic", "tbc_classic"⟩
  else if typeId = 73713 then
    some ⟨73713, "WoW Wrath of the Lich King Classic", "wow-wrath-of-the-lich-king-classic",
      "wotlk_classic"⟩
  else if typeId = 77522 then
    some ⟨77522, "WoW Cataclysm Classic", "wow-cataclysm-classic", "cata_classic"⟩
  else if typeId = 79434 then
    some ⟨79434, "WoW Mists of Pandaria Classic", "wow-mists-of-pandaria-classic", "mop_classic"⟩
  else if typeId = 517 then
    some ⟨517, "WoW Retail", "wow-retail", "retail"⟩
  else none

/-- The entries of the `versionTypeMap` object in JavaScript enumeration order
(integer-like keys ascending). -/
def versionTypeEntries : List (Int × VersionType) :=
  [(517, ⟨517, "WoW Retail", "wow-retail", "retail"⟩),
   (67408, ⟨67408, "WoW Classic Era", "wow-classic-era", "classic_era"⟩),
   (73246, ⟨73246, "WoW Burning Crusade Classic", "wow-burning-crusade-classic", "tbc_classic"⟩),
   (73713, ⟨73713, "WoW Wrath of the Lich King Classic", "wow-wrath-of-the-lich-king-classic",
     "wotlk_classic"⟩),
   (77522, ⟨77522, "WoW Cataclysm Classic", "wow-cataclysm-classic", "cata_classic"⟩),
   (79434, ⟨79434, "WoW Mists of Pandaria Classic", "wow-mists-of-pandaria-classic",
     "mop_classic"⟩)]

/-! ### CurseForgeClient.getAllWowVersions (flatten step, pure part) -/

/-- One raw version group from the `games/1/versions` endpoint; `versions` is
`none` when the field is missing or not an array. -/
structure VersionGroup where
  type : Int
  versions : Option (List String)
deriving Repr, DecidableEq

/-- The pure flatten step of `CurseForgeClient.getAllWowVersions`: groups
without a versions array are skipped, groups whose `type` is not in the
catalog are skipped, the rest are flattened in order. -/
def getAllWowVersions (versionGroups : List VersionGroup) : List CurseForgeVersion :=
  versionGroups.foldl (fun allVersions group =>
    match group.versions with
    | none => allVersions
    | some versions =>
      match versionTypeMap group.type with
      | none => allVersions
      | some versionType =>
        allVersions ++ versions.map (fun version =>
          { name := version
            type := group.type
            variant := versionType.variant
            versionTypeName := versionType.name
            versionTypeSlug := versionType.slug })) []

/-! ### Date#toISOString (the JavaScript built-in used for timestamps) -/

/-- Zero-padding to two digits. -/
def pad2n (n : Nat) : String :=
  if n < 10 then "0" ++ toString n else toString n

/-- Zero-padding to three digits. -/
def pad3n (n : Nat) : String :=
  if n < 10 then "00" ++ toString n
  else if n < 100 then "0" ++ toString n
  else toString n

/-- Zero-padding to four digits. -/
def pad4n (n : Nat) : String :=
  if n < 10 then "000" ++ toString n
  else if n < 100 then "00" ++ toString n
  else if n < 1000 then "0" ++ toString n
  else toString n

/-- Zero-padding to six digits. -/
def pad6n (n : Nat) : String :=
  if n < 100000 then "0" ++ pad4n (n % 100000) ++ toString (n / 100000) else toString n

/-- Proleptic Gregorian date (year, month, day) of a day count since the Unix
epoch (civil-from-days algorithm). -/
def civilFromDays (z0 : Int) : Int × Nat × Nat :=
  let z := z0 + 719468
  let era := Int.fdiv z 146097
  let doe := (z - era * 146097).toNat
  let yoe := (doe - doe / 1460 + doe / 36524 - doe / 146096) / 365
  let y := (yoe : Int) + era * 400
  let doy := doe - (365 * yoe + yoe / 4 - yoe / 100)
  let mp := (5 * doy + 2) / 153
  let d := doy - (153 * mp + 2) / 5 + 1
  let m := if mp < 10 then mp + 3 else mp - 9
  (if m ≤ 2 then y + 1 else y, m, d)

/-- Embedding of `new Date(ms).toISOString()`. -/
def jsToISOString (ms : Int) : String :=
  let day := Int.fdiv ms 86400000
  let msod := (ms - day * 86400000).toNat
  let c := civilFromDays day
  let yearStr :=
    if 0 ≤ c.1 ∧ c.1 ≤ 9999 then pad4n c.1.toNat
    else if 9999 < c.1 then "+" ++ pad6n c.1.toNat
    else "-" ++ pad6n (-c.1).toNat
  yearStr ++ "-" ++ pad2n c.2.1 ++ "-" ++ pad2n c.2.2 ++ "T" ++
    pad2n (msod / 3600000) ++ ":" ++ pad2n (msod % 3600000 / 60000) ++ ":" ++
    pad2n (msod % 60000 / 1000) ++ "." ++ pad3n (msod % 1000) ++ "Z"

/-! ### fetch-versions.js (addon-versions pipeline, pure core) -/

/-- Sort key of `processVersionsByVariant`: `parseInt(v.version)`. -/
def interfaceKey (v : ParsedVersion) : Option Int := jsParseInt v.version

/-- The grouping reduce of `processVersionsByVariant`, before sorting. -/
def groupByVariantObj (parsedVersions : List ParsedVersion) : JsObj (List ParsedVersion) :=
  parsedVersions.foldl (fun acc version => jsPushBucket acc version.variant version) []

/-- `processVersionsByVariant`: group by variant, then sort each bucket in
place, newest (largest `parseInt(version)`) first. -/
def processVersionsByVariant (parsedVersions : List ParsedVersion) : JsObj (List ParsedVersion) :=
  (groupByVariantObj parsedVersions).map (fun p => (p.1, sortDescBy interfaceKey p.2))

/-- The persisted addon-versions document (`versions.json`). -/
structure VersionsOutput where
  lastUpdated : String
  versions : List ParsedVersion
  versionsByVariant : JsObj (List ParsedVersion)
  versionTypes : List (Int × VersionType)
  summary : List (String × Nat)
deriving Repr, DecidableEq

/-- `versionsByVariant.x?.length || 0` for one summary line. -/
def summaryCount (versionsByVariant : JsObj (List ParsedVersion)) (variant : String) : Nat :=
  match jsGet versionsByVariant variant with
  | some l => l.length
  | none => 0

/-- `createOutputObject`. -/
def createOutputObject (parsedVersions : List ParsedVersion)
    (versionsByVariant : JsObj (List ParsedVersion))
    (versionTypes : List (Int × VersionType)) (now : Int) : VersionsOutput :=
  { lastUpdated := jsToISOString now
    versions := parsedVersions
    versionsByVariant := versionsByVariant
    versionTypes := versionTypes
    summary :=
      [("classic_era", summaryCount versionsByVariant "classic_era"),
       ("tbc_classic", summaryCount versionsByVariant "tbc_classic"),
       ("wotlk_classic", summaryCount versionsByVariant "wotlk_classic"),
       ("cata_classic", summaryCount versionsByVariant "cata_classic"),
       ("mop_classic", summaryCount versionsByVariant "mop_classic"),
       ("retail", summaryCount versionsByVariant "retail")] }

/-- `JSON.stringify` of one element of the `versions` array (document key
order is the construction order of `parseVersion`). -/
def stringifyParsedVersion (v : ParsedVersion) : String :=
  "\x7b\"version\":" ++ jsonStr v.version ++ ",\"name\":" ++ jsonStr v.name ++
    ",\"variant\":" ++ jsonStr v.variant ++
    ",\"gameVersionTypeId\":" ++ toString v.gameVersionTypeId ++
    ",\"versionTypeName\":" ++ jsonStr v.versionTypeName ++
    ",\"versionTypeSlug\":" ++ jsonStr v.versionTypeSlug ++ "\x7d"

/-- `JSON.stringify` of a `versions` array. -/
def stringifyVersions (vs : List ParsedVersion) : String :=
  "[" ++ String.intercalate "," (vs.map stringifyParsedVersion) ++ "]"

/-- The previously persisted `versions.json`, as read back; `versions` is
`none` when the key is absent. -/
structure OldVersionsDoc where
  lastUpdated : String
  versions : Option (List ParsedVersion)
deriving Repr, DecidableEq

/-- `hasVersionsChanged`: compare `JSON.stringify` of the two `versions`
arrays; an absent old document or absent old `versions` key counts as
changed (`JSON.stringify(undefined)` is `undefined`, never equal to the
serialized candidate array). -/
def hasVersionsChanged (oldData : Option OldVersionsDoc) (newData : VersionsOutput) : Bool :=
  match oldData with
  | none => true
  | some old =>
    match old.versions with
    | none => true
    | some oldVersions => stringifyVersions oldVersions ≠ stringifyVersions newData.versions

/-- Outcome of one pipeline run: `exit1` models `process.exit(1)` with its
diagnostic, `success` models a normal completion carrying the write effect. -/
inductive RunResult (α : Type) where
  | exit1 (msg : String)
  | success (value : α)
deriving Repr, DecidableEq

/-- Whether the run terminated through `process.exit(1)`. -/
def RunResult.isExit1 {α : Type} : RunResult α → Bool
  | .exit1 _ => true
  | .success _ => false

/-- The pure core of `fetchAndSaveVersions` (fetch-versions.js), as a function
of the fetched records, the previously persisted document, and the clock.
The carried `VersionsOutput` is the document passed to `saveVersionsToFile`:
the file is written on every successful run. -/
def fetchAndSaveVersions (wowVersions : List CurseForgeVersion)
    (existingData : Option OldVersionsDoc) (now : Int) : RunResult VersionsOutput :=
  let parsedVersions := parseVersions wowVersions
  let versionsByVariant := processVersionsByVariant parsedVersions
  let output := createOutputObject parsedVersions versionsByVariant versionTypeEntries now
  match existingData with
  | some old =>
    if !hasVersionsChanged (some old) output then
      RunResult.success { output with lastUpdated := old.lastUpdated }
    else
      RunResult.success output
  | none => RunResult.success output

/-! ### fetch-game-versions.js (game-version-id pipeline, pure core) -/

/-- The local `parseVersion` helper of fetch-game-versions.js (same algorithm
as `VersionParser.parseVersionToNumber`). -/
def fgvParseVersion (versionString : String) : Option Int :=
  let parts := jsSplitOnDot versionString
  match jsParseInt (segmentOrZero parts 0), jsParseInt (segmentOrZero parts 1),
        jsParseInt (segmentOrZero parts 2) with
  | some major, some minor, some patch => some (major * 10000 + minor * 100 + patch)
  | _, _, _ => none

/-- One raw record from the Upload API; each field is `none` when absent. -/
structure RawGameVersion where
  name : Option String
  id : Option Int
  gameVersionTypeID : Option Int
deriving Repr, DecidableEq

/-- The `{id, variant}` value stored under a version name. -/
structure GameVersionData where
  id : Int
  variant : String
deriving Repr, DecidableEq

/-- The variant resolved for a `gameVersionTypeID`:
`versionType ? versionType.variant : 'unknown'`. -/
def variantFor (versionTypeLookup : Int → Option VersionType) (gameVersionTypeID : Int) :
    String :=
  match versionTypeLookup gameVersionTypeID with
  | some versionType => versionType.variant
  | none => "unknown"

/-- The loop body of `processGameVersionData`: a record is stored under its
name only when the record itself and its `name`, `id` and
`gameVersionTypeID` are all truthy (absent, `""` and `0` are falsy). -/
def processGameVersionStep (versionTypeLookup : Int → Option VersionType)
    (gameVersions : JsObj GameVersionData) (record : Option RawGameVersion) :
    JsObj GameVersionData :=
  match record with
  | some ⟨some name, some id, some gameVersionTypeID⟩ =>
    if name ≠ "" ∧ id ≠ 0 ∧ gameVersionTypeID ≠ 0 then
      jsSet gameVersions name ⟨id, variantFor versionTypeLookup gameVersionTypeID⟩
    else gameVersions
  | _ => gameVersions

/-- `processGameVersionData`: a non-array payload yields an empty object;
each element must be truthy with truthy `name`, `id` and `gameVersionTypeID`
(so `""`/`0`/absent are all rejected); an unknown `gameVersionTypeID` maps to
the sentinel variant `"unknown"`; a later record with the same name replaces
the stored value. -/
def processGameVersionData (data : Option (List (Option RawGameVersion)))
    (versionTypeLookup : Int → Option VersionType) : JsObj GameVersionData :=
  match data with
  | none => []
  | some records => records.foldl (processGameVersionStep versionTypeLookup) []

/-- One entry of a `versionsByVariant` bucket in `saveGameVersionsToFile`. -/
structure GvEntry where
  version : String
  gameVersionId : Int
  sortOrder : Option Int
deriving Repr, DecidableEq

/-- The bucket entry pushed for one `[versionName, data]` pair of
`Object.entries(gameVersions)`. -/
def gvEntryOfPair (p : String × GameVersionData) : GvEntry :=
  ⟨p.1, p.2.id, fgvParseVersion p.1⟩

/-- The grouping loop of `saveGameVersionsToFile`, before sorting. -/
def gvVersionsByVariant (gameVersions : JsObj GameVersionData) : JsObj (List GvEntry) :=
  (jsEntries gameVersions).foldl (fun acc p =>
    jsPushBucket acc p.2.variant (gvEntryOfPair p)) []

/-- The buckets of `saveGameVersionsToFile` after the in-place descending
sort by `sortOrder`. -/
def gvSortedBuckets (gameVersions : JsObj GameVersionData) : JsObj (List GvEntry) :=
  (gvVersionsByVariant gameVersions).map (fun p => (p.1, sortDescBy GvEntry.sortOrder p.2))

/-- One release row of the persisted `game-versions.json`. -/
structure GameRelease where
  version : String
  originalVersion : String
  variant : String
  releaseTimestamp : String
deriving Repr, DecidableEq

/-- The releases pushed for one variant bucket: the entry at index `i` of a
bucket of size `n` receives the synthetic timestamp `now - (n - i - 1)` days
(86400000 ms per day). -/
def bucketReleases (variant : String) (versions : List GvEntry) (now : Int) : List GameRelease :=
  mapWithIndex (fun index versionData =>
    { version := toString versionData.gameVersionId
      originalVersion := versionData.version
      variant := variant
      releaseTimestamp :=
        jsToISOString (now - ((versions.length : Int) - index - 1) * 86400000) }) versions

/-- The full `renovateReleases` array of `saveGameVersionsToFile`. -/
def gvRenovateReleases (gameVersions : JsObj GameVersionData) (now : Int) : List GameRelease :=
  (jsEntries (gvSortedBuckets gameVersions)).foldl (fun acc p =>
    acc ++ bucketReleases p.1 p.2 now) []

/-- The persisted `game-versions.json` document. (The auxiliary
`game-versions-mapping.json` debug artifact is not modelled; no claim
concerns it.) -/
structure GameVersionsDoc where
  lastUpdated : String
  releases : List GameRelease
deriving Repr, DecidableEq

/-- The pure content of `saveGameVersionsToFile`. -/
def saveGameVersionsToFile (gameVersions : JsObj GameVersionData) (now : Int) : GameVersionsDoc :=
  { lastUpdated := jsToISOString now
    releases := gvRenovateReleases gameVersions now }

/-- The previously persisted release row, restricted to the fields
`hasGameVersionsChanged` reads. -/
structure OldGameRelease where
  version : String
  originalVersion : String
  variant : String
deriving Repr, DecidableEq

/-- The previously persisted `game-versions.json`, as read back. -/
structure OldGameDoc where
  releases : Option (List OldGameRelease)
deriving Repr, DecidableEq

/-- The `{originalVersion, variant}` comparison value. -/
structure OrigVariant where
  originalVersion : String
  variant : String
deriving Repr, DecidableEq

/-- `JSON.stringify` of one `{originalVersion, variant}` value. -/
def stringifyOrigVariant (ov : OrigVariant) : String :=
  "\x7b\"originalVersion\":" ++ jsonStr ov.originalVersion ++
    ",\"variant\":" ++ jsonStr ov.variant ++ "\x7d"

/-- `JSON.stringify` of an id-keyed comparison map, in JavaScript property
enumeration order. -/
def stringifyOVMap (m : JsObj OrigVariant) : String :=
  "\x7b" ++ String.intercalate ","
    ((jsEntries m).map (fun p => jsonStr p.1 ++ ":" ++ stringifyOrigVariant p.2)) ++ "\x7d"

/-- The map built from the persisted releases array (last duplicate key
wins). -/
def oldVersionsMap (releases : List OldGameRelease) : JsObj OrigVariant :=
  releases.foldl (fun m release =>
    jsSet m release.version ⟨release.originalVersion, release.variant⟩) []

/-- The map built from the freshly processed data, keyed by `String(id)`. -/
def newVersionsMap (gameVersions : JsObj GameVersionData) : JsObj OrigVariant :=
  (jsEntries gameVersions).foldl (fun m p =>
    jsSet m (toString p.2.id) ⟨p.1, p.2.variant⟩) []

/-- `hasGameVersionsChanged`: build both id-keyed maps and compare their
canonical serializations. -/
def hasGameVersionsChanged (oldData : Option OldGameDoc)
    (gameVersions : JsObj GameVersionData) : Bool :=
  match oldData with
  | none => true
  | some old =>
    match old.releases with
    | none => true
    | some releases =>
      stringifyOVMap (oldVersionsMap releases) ≠ stringifyOVMap (newVersionsMap gameVersions)

/-- The pure core of `fetchAndSaveGameVersions` (fetch-game-versions.js):
exit 1 when zero usable records survive the mapping; on no change the write
is skipped entirely (`success none`); otherwise the new document is written
(`success (some doc)`). -/
def fetchAndSaveGameVersions (gameVersionData : Option (List (Option RawGameVersion)))
    (existingData : Option OldGameDoc) (now : Int) : RunResult (Option GameVersionsDoc) :=
  let gameVersions := processGameVersionData gameVersionData versionTypeMap
  if gameVersions.length = 0 then
    RunResult.exit1 "No game version IDs found in the API response"
  else
    match existingData with
    | some old =>
      if !hasGameVersionsChanged (some old) gameVersions then
        RunResult.success none
      else
        RunResult.success (some (saveGameVersionsToFile gameVersions now))
    | none => RunResult.success (some (saveGameVersionsToFile gameVersions now))

/-! ### Lemmas about the JavaScript object embedding -/

theorem jsGet_jsSet_self {α : Type} (o : JsObj α) (k : String) (v : α) :
    jsGet (jsSet o k v) k = some v := by
  induction o with
  | nil => simp [jsSet, jsGet]
  | cons p rest ih =>
    by_cases h : p.1 = k
    · simp [jsSet, jsGet, h]
    · simp [jsSet, jsGet, h, ih]

theorem jsSet_of_not_mem {α : Type} {o : JsObj α} {k : String} (v : α)
    (h : k ∉ o.map Prod.fst) : jsSet o k v = o ++ [(k, v)] := by
  induction o with
  | nil => simp [jsSet]
  | cons p rest ih =>
    simp only [List.map_cons, List.mem_cons, not_or] at h
    have hpk : p.1 ≠ k := fun hh => h.1 hh.symm
    simp [jsSet, hpk, ih h.2]

theorem keys_jsSet {α : Type} (o : JsObj α) (k : String) (v : α) :
    (jsSet o k v).map Prod.fst =
      if k ∈ o.map Prod.fst then o.map Prod.fst else o.map Prod.fst ++ [k] := by
  induction o with
  | nil => simp [jsSet]
  | cons p rest ih =>
    by_cases h : p.1 = k
    · simp [jsSet, h]
    · have hk : ¬ k = p.1 := fun hh => h hh.symm
      by_cases hmem : k ∈ rest.map Prod.fst <;> simp [jsSet, h, hk, hmem, ih]

theorem nodup_keys_jsSet {α : Type} {o : JsObj α} (k : String) (v : α)
    (h : (o.map Prod.fst).Nodup) : ((jsSet o k v).map Prod.fst).Nodup := by
  rw [keys_jsSet]
  by_cases hmem : k ∈ o.map Prod.fst
  · simpa [hmem] using h
  · simp only [hmem, if_false]
    refine List.Nodup.append h (List.nodup_singleton k) ?_
    intro a ha hak
    rw [List.mem_singleton] at hak
    exact hmem (hak ▸ ha)

theorem jsGet_eq_some_mem {α : Type} {o : JsObj α} {k : String} {v : α}
    (h : jsGet o k = some v) : (k, v) ∈ o := by
  induction o with
  | nil => simp [jsGet] at h
  | cons p rest ih =>
    by_cases hp : p.1 = k
    · simp only [jsGet, hp, if_true, Option.some.injEq] at h
      cases p
      simp_all
    · simp only [jsGet, hp, if_false] at h
      exact List.mem_cons_of_mem _ (ih h)

theorem jsGet_map {α β : Type} (f : α → β) (o : JsObj α) (k : String) :
    jsGet (o.map (fun p => (p.1, f p.2))) k = (jsGet o k).map f := by
  induction o with
  | nil => simp [jsGet]
  | cons p rest ih =>
    by_cases h : p.1 = k <;> simp [jsGet, h, ih]

theorem jsGet_jsPushBucket {α : Type} (o : JsObj (List α)) (k : String) (x : α) (q : String) :
    jsGet (jsPushBucket o k x) q =
      if q = k then some ((jsGet o k).getD [] ++ [x]) else jsGet o q := by
  induction o with
  | nil =>
    by_cases h : q = k
    · subst h
      simp [jsPushBucket, jsGet]
    · simp [jsPushBucket, jsGet, h, Ne.symm h]
  | cons p rest ih =>
    by_cases hpk : p.1 = k
    · subst hpk
      by_cases hq : q = p.1
      · subst hq
        simp [jsPushBucket, jsGet]
      · simp [jsPushBucket, jsGet, hq, Ne.symm hq]
    · by_cases hq : q = k
      · subst hq
        simp [jsPushBucket, jsGet, hpk, ih]
      · by_cases hpq : p.1 = q
        · simp [jsPushBucket, jsGet, hpk, hpq, hq]
        · simp [jsPushBucket, jsGet, hpk, hpq, hq, ih]

/-! ### Lemmas about the stable sorts -/

theorem insertAscBy_perm {α : Type} (key : α → Nat) (a : α) (l : List α) :
    (insertAscBy key a l).Perm (a :: l) := by
  induction l with
  | nil => simp [insertAscBy]
  | cons b l ih =>
    by_cases h : key b < key a
    · simpa [insertAscBy, h] using (ih.cons b).trans (List.Perm.swap a b l)
    · simp [insertAscBy, h]

theorem sortAscBy_perm {α : Type} (key : α → Nat) (l : List α) :
    (sortAscBy key l).Perm l := by
  induction l with
  | nil => simp [sortAscBy]
  | cons a l ih =>
    exact (insertAscBy_perm key a (sortAscBy key l)).trans (ih.cons a)

theorem insertAscBy_pairwise {α : Type} (key : α → Nat) (a : α) {l : List α}
    (h : List.Pairwise (fun x y => key x ≤ key y) l) :
    List.Pairwise (fun x y => key x ≤ key y) (insertAscBy key a l) := by
  induction l with
  | nil => simp [insertAscBy]
  | cons b l ih =>
    rcases List.pairwise_cons.mp h with ⟨hb, hl⟩
    by_cases hc : key b < key a
    · simp only [insertAscBy, hc, if_true]
      refine List.pairwise_cons.mpr ⟨?_, ih hl⟩
      intro x hx
      rcases List.mem_cons.mp ((insertAscBy_perm key a l).mem_iff.mp hx) with hx | hx
      · exact hx ▸ Nat.le_of_lt hc
      · exact hb x hx
    · simp only [insertAscBy, hc, if_false]
      refine List.pairwise_cons.mpr ⟨?_, h⟩
      intro x hx
      rcases List.mem_cons.mp hx with hx | hx
      · exact hx ▸ Nat.le_of_not_lt hc
      · exact Nat.le_trans (Nat.le_of_not_lt hc) (hb x hx)

theorem sortAscBy_pairwise {α : Type} (key : α → Nat) (l : List α) :
    List.Pairwise (fun x y => key x ≤ key y) (sortAscBy key l) := by
  induction l with
  | nil => simp [sortAscBy]
  | cons a l ih => exact insertAscBy_pairwise key a ih

theorem sortAscBy_eq_of_perm {α : Type} (key : α → Nat) {l1 l2 : List α}
    (hp : l1.Perm l2) (hn : (l1.map key).Nodup) :
    sortAscBy key l1 = sortAscBy key l2 := by
  have hr : IsAntisymm α (fun a b => key a < key b ∨ a = b) := by
    constructor
    intro a b h1 h2
    rcases h1 with h1 | h1
    · rcases h2 with h2 | h2
      · omega
      · exact h2.symm
    · exact h1
  have hperm : (sortAscBy key l1).Perm (sortAscBy key l2) :=
    (sortAscBy_perm key l1).trans (hp.trans (sortAscBy_perm key l2).symm)
  have sorted : ∀ (l : List α), (l.map key).Nodup →
      List.Sorted (fun a b => key a < key b ∨ a = b) (sortAscBy key l) := by
    intro l hnl
    have hle := sortAscBy_pairwise key l
    have hne : List.Pairwise (fun x y => key x ≠ key y) (sortAscBy key l) := by
      have : ((sortAscBy key l).map key).Nodup :=
        (((sortAscBy_perm key l).map key).nodup_iff).mpr hnl
      exact List.pairwise_map.mp this
    exact (hle.and hne).imp (fun h => Or.inl (Nat.lt_of_le_of_ne h.1 h.2))
  have hn2 : (l2.map key).Nodup := ((hp.map key).nodup_iff).mp hn
  exact @List.eq_of_perm_of_sorted α _ hr _ _ hperm (sorted l1 hn) (sorted l2 hn2)

/-- The descending ordering that the sorted buckets satisfy: both keys are
actual numbers and the later key is at most the earlier one. -/
def DescRel {α : Type} (key : α → Option Int) (x y : α) : Prop :=
  ∃ kx ky, key x = some kx ∧ key y = some ky ∧ ky ≤ kx

theorem insertDescBy_perm {α : Type} (key : α → Option Int) (a : α) (l : List α) :
    (insertDescBy key a l).Perm (a :: l) := by
  induction l with
  | nil => simp [insertDescBy]
  | cons b l ih =>
    by_cases h : optGT (key b) (key a)
    · simpa [insertDescBy, h] using (ih.cons b).trans (List.Perm.swap a b l)
    · simp [insertDescBy, h]

theorem sortDescBy_perm {α : Type} (key : α → Option Int) (l : List α) :
    (sortDescBy key l).Perm l := by
  induction l with
  | nil => simp [sortDescBy]
  | cons a l ih =>
    exact (insertDescBy_perm key a (sortDescBy key l)).trans (ih.cons a)

theorem insertDescBy_pairwise {α : Type} (key : α → Option Int) (a : α) {l : List α}
    (ha : (key a).isSome) (hl : ∀ x ∈ l, (key x).isSome)
    (h : List.Pairwise (DescRel key) l) :
    List.Pairwise (DescRel key) (insertDescBy key a l) := by
  induction l with
  | nil => simp [insertDescBy]
  | cons b l ih =>
    rcases List.pairwise_cons.mp h with ⟨hb, hrest⟩
    rcases Option.isSome_iff_exists.mp ha with ⟨ka, hka⟩
    rcases Option.isSome_iff_exists.mp (hl b (List.mem_cons_self b l)) with ⟨kb, hkb⟩
    by_cases hc : optGT (key b) (key a)
    · simp only [insertDescBy, hc, if_true]
      refine List.pairwise_cons.mpr ⟨?_, ih (fun x hx => hl x (List.mem_cons_of_mem _ hx)) hrest⟩
      intro x hx
      rcases List.mem_cons.mp ((insertDescBy_perm key a l).mem_iff.mp hx) with hx | hx
      · subst hx
        refine ⟨kb, ka, hkb, hka, ?_⟩
        have : ka < kb := by simpa [optGT, hkb, hka] using hc
        omega
      · exact hb x hx
    · simp only [insertDescBy, hc, if_false]
      have hab : DescRel key a b := by
        refine ⟨ka, kb, hka, hkb, ?_⟩
        have : ¬ ka < kb := by simpa [optGT, hkb, hka] using hc
        omega
      refine List.pairwise_cons.mpr ⟨?_, h⟩
      intro x hx
      rcases List.mem_cons.mp hx with hx | hx
      · exact hx ▸ hab
      · rcases hb x hx with ⟨kb2, kx, hkb2, hkx, hle⟩
        rcases hab with ⟨ka2, kb3, hka2, hkb3, hle2⟩
        refine ⟨ka2, kx, hka2, hkx, ?_⟩
        rw [hkb2] at hkb3
        have hbb := Option.some.inj hkb3
        omega

theorem sortDescBy_pairwise {α : Type} (key : α → Option Int) {l : List α}
    (h : ∀ x ∈ l, (key x).isSome) :
    List.Pairwise (DescRel key) (sortDescBy key l) := by
  induction l with
  | nil => simp [sortDescBy]
  | cons a l ih =>
    refine insertDescBy_pairwise key a (h a (List.mem_cons_self a l)) ?_
      (ih (fun x hx => h x (List.mem_cons_of_mem _ hx)))
    intro x hx
    exact h x (List.mem_cons_of_mem a ((sortDescBy_perm key l).mem_iff.mp hx))

/-! ### Lemmas about bucket grouping and flattening -/

theorem bucketFold_get {α β : Type} (variantOf : α → String) (emb : α → β)
    (l : List α) (acc : JsObj (List β)) (v : String) :
    jsGet (l.foldl (fun a x => jsPushBucket a (variantOf x) (emb x)) acc) v =
      match jsGet acc v with
      | some b => some (b ++ (l.filter (fun x => variantOf x = v)).map emb)
      | none =>
        if (l.filter (fun x => variantOf x = v)).isEmpty then none
        else some ((l.filter (fun x => variantOf x = v)).map emb) := by
  induction l generalizing acc with
  | nil => cases h : jsGet acc v <;> simp [h]
  | cons x l ih =>
    rw [List.foldl_cons, ih, jsGet_jsPushBucket]
    by_cases hv : variantOf x = v
    · rw [if_pos hv.symm, List.filter_cons_of_pos (by simp [hv])]
      cases h : jsGet acc v with
      | some b => simp [h, hv]
      | none => simp [h, hv]
    · rw [if_neg (fun hh => hv hh.symm), List.filter_cons_of_neg (by simp [hv])]

theorem groupByVariantObj_get (parsedVersions : List ParsedVersion) (v : String) :
    jsGet (groupByVariantObj parsedVersions) v =
      if (parsedVersions.filter (fun x => x.variant = v)).isEmpty then none
      else some (parsedVersions.filter (fun x => x.variant = v)) := by
  have h := bucketFold_get (fun x : ParsedVersion => x.variant) id parsedVersions [] v
  simpa [jsGet, groupByVariantObj] using h

theorem gvVersionsByVariant_get (gameVersions : JsObj GameVersionData) (v : String) :
    jsGet (gvVersionsByVariant gameVersions) v =
      if ((jsEntries gameVersions).filter (fun p => p.2.variant = v)).isEmpty then none
      else some (((jsEntries gameVersions).filter (fun p => p.2.variant = v)).map gvEntryOfPair) := by
  have h := bucketFold_get (fun p : String × GameVersionData => p.2.variant) gvEntryOfPair
    (jsEntries gameVersions) [] v
  simpa [jsGet, gvVersionsByVariant] using h

theorem jsEntries_perm {α : Type} (o : JsObj α) : (jsEntries o).Perm o := by
  unfold jsEntries
  exact ((sortAscBy_perm _ _).append_right _).trans
    (List.filter_append_perm (fun p => isArrayIndexKey p.1) o)

theorem mapWithIndexFrom_get? {α β : Type} (f : Nat → α → β) (k : Nat) (l : List α) (i : Nat) :
    (mapWithIndexFrom f k l).get? i = (l.get? i).map (f (k + i)) := by
  induction l generalizing k i with
  | nil => simp [mapWithIndexFrom]
  | cons a l ih =>
    cases i with
    | zero => simp [mapWithIndexFrom]
    | succ n =>
      have h := ih (k + 1) n
      simp only [mapWithIndexFrom, List.get?]
      rw [h]
      have harith : k + 1 + n = k + (n + 1) := by omega
      rw [harith]

theorem mapWithIndexFrom_length {α β : Type} (f : Nat → α → β) (k : Nat) (l : List α) :
    (mapWithIndexFrom f k l).length = l.length := by
  induction l generalizing k with
  | nil => rfl
  | cons a l ih => simp [mapWithIndexFrom, ih]

theorem map_mapWithIndexFrom {α β γ : Type} (f : Nat → α → β) (g : β → γ) (k : Nat) (l : List α) :
    (mapWithIndexFrom f k l).map g = mapWithIndexFrom (fun i x => g (f i x)) k l := by
  induction l generalizing k with
  | nil => rfl
  | cons a l ih => simp [mapWithIndexFrom, ih]

theorem mapWithIndexFrom_const {α β : Type} (g : α → β) (k : Nat) (l : List α) :
    mapWithIndexFrom (fun _ x => g x) k l = l.map g := by
  induction l generalizing k with
  | nil => rfl
  | cons a l ih => simp [mapWithIndexFrom, ih]

theorem foldl_append_flatten {α β : Type} (g : α → List β) (l : List α) (acc : List β) :
    l.foldl (fun a x => a ++ g x) acc = acc ++ (l.map g).flatten := by
  induction l generalizing acc with
  | nil => simp
  | cons x l ih => simp [ih, List.append_assoc]

theorem jsPushBucket_flatten_perm {α : Type} (o : JsObj (List α)) (k : String) (x : α) :
    (((jsPushBucket o k x).map Prod.snd).flatten).Perm ((o.map Prod.snd).flatten ++ [x]) := by
  induction o with
  | nil => simp [jsPushBucket]
  | cons p rest ih =>
    by_cases h : p.1 = k
    · simp only [jsPushBucket, h, if_true, List.map_cons, List.flatten_cons, List.append_assoc]
      exact List.Perm.append_left p.2 List.perm_append_comm
    · simp only [jsPushBucket, h, if_false, List.map_cons, List.flatten_cons, List.append_assoc]
      exact List.Perm.append_left p.2 ih

theorem bucketFold_flatten_perm {α β : Type} (variantOf : α → String) (emb : α → β)
    (l : List α) (acc : JsObj (List β)) :
    (((l.foldl (fun a x => jsPushBucket a (variantOf x) (emb x)) acc).map Prod.snd).flatten).Perm
      ((acc.map Prod.snd).flatten ++ l.map emb) := by
  induction l generalizing acc with
  | nil => simp
  | cons x l ih =>
    rw [List.foldl_cons]
    refine (ih _).trans ?_
    refine ((jsPushBucket_flatten_perm acc (variantOf x) (emb x)).append_right (l.map emb)).trans ?_
    simp [List.append_assoc]

theorem map_sort_flatten_perm {β : Type} (key : β → Option Int) (o : JsObj (List β)) :
    (((o.map (fun p => (p.1, sortDescBy key p.2))).map Prod.snd).flatten).Perm
      ((o.map Prod.snd).flatten) := by
  induction o with
  | nil => simp
  | cons p rest ih =>
    simp only [List.map_cons, List.flatten_cons]
    exact List.Perm.append (sortDescBy_perm key p.2) ih

/-! ### Claim C1 -/

/-- C1: the claim states that `parseInterfaceVersion` returns NONE for inputs
such as `"1.2.3.4"`, `"1.15.3-beta"`, `"v1.15.3"`, `" 1.15.3"`, `"1.15.3 "`
and `"1.15.3ab"`.  The implemented regex `/(\d+)\.(\d+)\.(\d+)/` is not
anchored, so the function instead returns a value on each of those inputs
(it matches an interior `X.Y.Z` token), contradicting the repository's own
test suite and documentation.  This theorem records what the code actually
computes at those inputs (the last three conjuncts are the inputs on which
the code does agree with the claim). -/
theorem claim1_parseInterfaceVersion_not_anchored :
    parseInterfaceVersion "1.2.3.4" = some "10203" ∧
    parseInterfaceVersion "1.15.3-beta" = some "11503" ∧
    parseInterfaceVersion "v1.15.3" = some "11503" ∧
    parseInterfaceVersion " 1.15.3" = some "11503" ∧
    parseInterfaceVersion "1.15.3 " = some "11503" ∧
    parseInterfaceVersion "1.15.3ab" = some "11503" ∧
    parseInterfaceVersion "invalid" = none ∧
    parseInterfaceVersion "1.2" = none ∧
    parseInterfaceVersion "" = none := by
  refine ⟨rfl, rfl, rfl, rfl, rfl, rfl, rfl, rfl, rfl⟩

/-! ### Claim C2 -/

/-- C2 counterexample: in the addon-versions pipeline a successful fetch that
yields zero usable records after mapping does not exit with code 1; the run
completes successfully and still writes a document with zero versions. -/
theorem claim2_counterexample :
    parseVersions [⟨"invalid", 517, "retail", "WoW Retail", "wow-retail"⟩] = [] ∧
    (fetchAndSaveVersions [⟨"invalid", 517, "retail", "WoW Retail", "wow-retail"⟩]
      none 0).isExit1 = false ∧
    fetchAndSaveVersions [⟨"invalid", 517, "retail", "WoW Retail", "wow-retail"⟩] none 0 =
      RunResult.success (createOutputObject [] [] versionTypeEntries 0) := by
  refine ⟨rfl, rfl, rfl⟩

/-- C2 (amended): only the game-version-id pipeline exits with code 1 and a
diagnostic message when the upstream fetch succeeds but yields zero usable
records after mapping; the addon-versions pipeline has no such guard and
never exits through that path, it proceeds and writes a document with zero
versions. -/
theorem claim2_empty_result_guard :
    (∀ (data : Option (List (Option RawGameVersion))) (existingData : Option OldGameDoc)
        (now : Int),
      processGameVersionData data versionTypeMap = [] →
      fetchAndSaveGameVersions data existingData now =
        RunResult.exit1 "No game version IDs found in the API response") ∧
    (∀ (wowVersions : List CurseForgeVersion) (existingData : Option OldVersionsDoc) (now : Int),
      (fetchAndSaveVersions wowVersions existingData now).isExit1 = false) := by
  constructor
  · intro data existingData now h
    simp [fetchAndSaveGameVersions, h]
  · intro wowVersions existingData now
    cases existingData with
    | none => rfl
    | some old =>
      by_cases h : hasVersionsChanged (some old)
          (createOutputObject (parseVersions wowVersions)
            (processVersionsByVariant (parseVersions wowVersions)) versionTypeEntries now)
      · simp [fetchAndSaveVersions, h, RunResult.isExit1]
      · simp [fetchAndSaveVersions, h, RunResult.isExit1]

/-- C2 witness: the amended statement applied at concrete inputs. -/
theorem claim2_witness :
    fetchAndSaveGameVersions (some []) none 0 =
      RunResult.exit1 "No game version IDs found in the API response" ∧
    (fetchAndSaveVersions [] none 0).isExit1 = false :=
  ⟨claim2_empty_result_guard.1 (some []) none 0 rfl,
   claim2_empty_result_guard.2 [] none 0⟩

/-! ### Claim C3 -/

/-- C3 counterexample: in the addon-versions flatten step a group whose
`type` is not in the six-entry catalog is dropped entirely; its records are
not retained with the sentinel variant `"unknown"`. -/
theorem claim3_counterexample :
    versionTypeMap 99999 = none ∧
    getAllWowVersions [⟨99999, some ["1.0.0"]⟩] = [] := by
  refine ⟨rfl, rfl⟩

/-- C3 (amended): the retain-and-tag-"unknown" behavior holds only in the
game-version-id mapping step; the addon-versions flatten step instead skips
a group with an unrecognized type entirely (all its versions are dropped,
never tagged). -/
theorem claim3_unknown_variant :
    (∀ (records : List (Option RawGameVersion)) (name : String) (id tid : Int),
      name ≠ "" → id ≠ 0 → tid ≠ 0 → versionTypeMap tid = none →
      jsGet (processGameVersionData
          (some (records ++ [some ⟨some name, some id, some tid⟩])) versionTypeMap) name =
        some ⟨id, "unknown"⟩) ∧
    (∀ (gs1 gs2 : List VersionGroup) (g : VersionGroup),
      versionTypeMap g.type = none →
      getAllWowVersions (gs1 ++ g :: gs2) = getAllWowVersions (gs1 ++ gs2)) := by
  constructor
  · intro records name id tid hname hid htid hlookup
    simp only [processGameVersionData, List.foldl_append, List.foldl_cons, List.foldl_nil]
    simp only [processGameVersionStep, variantFor, hlookup]
    rw [if_pos ⟨hname, hid, htid⟩]
    exact jsGet_jsSet_self _ _ _
  · intro gs1 gs2 g hlookup
    simp only [getAllWowVersions, List.foldl_append, List.foldl_cons, List.foldl_nil]
    cases hv : g.versions with
    | none => rfl
    | some vs => rw [hlookup]

/-- C3 witness: the amended statement applied at concrete inputs. -/
theorem claim3_unknown_variant_witness :
    jsGet (processGameVersionData (some ([] ++ [some ⟨some "9.9.9", some 5, some 99999⟩]))
        versionTypeMap) "9.9.9" = some ⟨5, "unknown"⟩ ∧
    getAllWowVersions ([] ++ (⟨99998, some ["1.0.0"]⟩ : VersionGroup) :: []) =
      getAllWowVersions ([] ++ []) :=
  ⟨claim3_unknown_variant.1 [] "9.9.9" 5 99999 (by decide) (by decide) (by decide) rfl,
   claim3_unknown_variant.2 [] [] ⟨99998, some ["1.0.0"]⟩ rfl⟩

/-! ### Claim C4 -/

/-- C4: when change detection reports no change, the addon-versions pipeline
overwrites the candidate document's `lastUpdated` with the previous
document's `lastUpdated` and still writes the file (every other field of the
candidate is persisted as freshly computed), while the game-version-id
pipeline skips the write entirely, leaving the previous file untouched
(`success none` carries no write). -/
theorem claim4_no_change_policy :
    (∀ (wowVersions : List CurseForgeVersion) (old : OldVersionsDoc) (now : Int),
      hasVersionsChanged (some old)
          (createOutputObject (parseVersions wowVersions)
            (processVersionsByVariant (parseVersions wowVersions)) versionTypeEntries now) =
        false →
      fetchAndSaveVersions wowVersions (some old) now =
        RunResult.success
          { createOutputObject (parseVersions wowVersions)
              (processVersionsByVariant (parseVersions wowVersions)) versionTypeEntries now with
            lastUpdated := old.lastUpdated }) ∧
    (∀ (data : Option (List (Option RawGameVersion))) (old : OldGameDoc) (now : Int),
      processGameVersionData data versionTypeMap ≠ [] →
      hasGameVersionsChanged (some old) (processGameVersionData data versionTypeMap) = false →
      fetchAndSaveGameVersions data (some old) now = RunResult.success none) := by
  constructor
  · intro wowVersions old now h
    simp [fetchAndSaveVersions, h]
  · intro data old now hne h
    have hlen : (processGameVersionData data versionTypeMap).length ≠ 0 := by
      simpa [List.length_eq_zero] using hne
    simp [fetchAndSaveGameVersions, hlen, h]

set_option maxRecDepth 16000 in
/-- C4 witness: the statement applied to a concrete no-change run of each
pipeline. -/
theorem claim4_witness :
    fetchAndSaveVersions [⟨"1.15.3", 67408, "classic_era", "WoW Classic Era", "wow-classic-era"⟩]
        (some ⟨"2024-01-01T00:00:00.000Z",
          some [⟨"11503", "1.15.3", "classic_era", 67408, "WoW Classic Era",
            "wow-classic-era"⟩]⟩) 0 =
      RunResult.success
        { createOutputObject
            (parseVersions
              [⟨"1.15.3", 67408, "classic_era", "WoW Classic Era", "wow-classic-era"⟩])
            (processVersionsByVariant
              (parseVersions
                [⟨"1.15.3", 67408, "classic_era", "WoW Classic Era", "wow-classic-era"⟩]))
            versionTypeEntries 0 with
          lastUpdated := "2024-01-01T00:00:00.000Z" } ∧
    fetchAndSaveGameVersions (some [some ⟨some "1.15.3", some 12919, some 67408⟩])
        (some ⟨some [⟨"12919", "1.15.3", "classic_era"⟩]⟩) 0 = RunResult.success none :=
  ⟨claim4_no_change_policy.1
      [⟨"1.15.3", 67408, "classic_era", "WoW Classic Era", "wow-classic-era"⟩]
      ⟨"2024-01-01T00:00:00.000Z",
        some [⟨"11503", "1.15.3", "classic_era", 67408, "WoW Classic Era", "wow-classic-era"⟩]⟩
      0 (by decide),
   claim4_no_change_policy.2 (some [some ⟨some "1.15.3", some 12919, some 67408⟩])
      ⟨some [⟨"12919", "1.15.3", "classic_era"⟩]⟩ 0 (by decide) (by decide)⟩

/-! ### Claim C5 -/

theorem digitRun_append (a rest : List Char) (ha : ∀ c ∈ a, c.isDigit)
    (hr : ∀ c, rest.head? = some c → c.isDigit = false) :
    digitRun (a ++ rest) = (a, rest) := by
  induction a with
  | nil =>
    cases rest with
    | nil => rfl
    | cons c cs =>
      have := hr c rfl
      simp [digitRun, this]
  | cons c a ih =>
    have hc : c.isDigit := ha c (List.mem_cons_self c a)
    have ihr := ih (fun x hx => ha x (List.mem_cons_of_mem c hx))
    simp [digitRun, hc, ihr]

theorem matchVersionAt_exact (a b c tail : List Char)
    (hna : a ≠ []) (hnb : b ≠ []) (hnc : c ≠ [])
    (ha : ∀ x ∈ a, x.isDigit) (hb : ∀ x ∈ b, x.isDigit) (hc : ∀ x ∈ c, x.isDigit)
    (ht : ∀ x, tail.head? = some x → x.isDigit = false) :
    matchVersionAt (a ++ ('.' :: (b ++ ('.' :: (c ++ tail))))) = some (a, b, c) := by
  have hdot : ('.' : Char).isDigit = false := rfl
  have hdothead : ∀ (r : List Char) (x : Char), ('.' :: r).head? = some x → x.isDigit = false := by
    intro r x hx
    simp only [List.head?, Option.some.injEq] at hx
    rw [← hx]
    exact hdot
  have h1 : digitRun (a ++ ('.' :: (b ++ ('.' :: (c ++ tail))))) =
      (a, '.' :: (b ++ ('.' :: (c ++ tail)))) :=
    digitRun_append a ('.' :: (b ++ ('.' :: (c ++ tail)))) ha (hdothead _)
  have h2 : digitRun (b ++ ('.' :: (c ++ tail))) = (b, '.' :: (c ++ tail)) :=
    digitRun_append b ('.' :: (c ++ tail)) hb (hdothead _)
  have h3 : digitRun (c ++ tail) = (c, tail) := digitRun_append c tail hc ht
  simp only [matchVersionAt, h1, h2, h3]
  simp [hna, hnb, hnc]

theorem firstVersionMatch_of_head {l : List Char} {m : List Char × List Char × List Char}
    (hne : l ≠ []) (h : matchVersionAt l = some m) : firstVersionMatch l = some m := by
  cases l with
  | nil => exact absurd rfl hne
  | cons x xs => simp [firstVersionMatch, h]

theorem repr_digit_facts : ∀ n : Nat, n < 100 →
    (Nat.repr n).data ≠ [] ∧ ((Nat.repr n).data.all Char.isDigit) = true ∧
      padStart2 (Nat.repr n) = pad2n n := by decide

/-- C5: for all major, minor, patch in [0, 99], `parseInterfaceVersion`
applied to the dotted string `"major.minor.patch"` (each group an unpadded
decimal) returns major's digits followed by minor and patch each zero-padded
to two digits; together with the spec's concrete examples, including the
tolerated single trailing letter of `"4.0.3a"`. -/
theorem claim5_padding_inverse :
    (∀ (major minor patch : Nat), major ≤ 99 → minor ≤ 99 → patch ≤ 99 →
      parseInterfaceVersion (toString major ++ "." ++ toString minor ++ "." ++ toString patch) =
        some (toString major ++ pad2n minor ++ pad2n patch)) ∧
    parseInterfaceVersion "1.15.3" = some "11503" ∧
    parseInterfaceVersion "11.2.0" = some "110200" ∧
    parseInterfaceVersion "4.0.3a" = some "40003" ∧
    parseInterfaceVersion "10.15.20" = some "101520" := by
  refine ⟨?_, rfl, rfl, rfl, rfl⟩
  intro major minor patch h1 h2 h3
  have mkData : ∀ s : String, String.mk s.data = s := fun s => by cases s; rfl
  obtain ⟨hne1, hd1, hp1⟩ := repr_digit_facts major (by omega)
  obtain ⟨hne2, hd2, hp2⟩ := repr_digit_facts minor (by omega)
  obtain ⟨hne3, hd3, hp3⟩ := repr_digit_facts patch (by omega)
  have hdata : (toString major ++ "." ++ toString minor ++ "." ++ toString patch).data =
      (Nat.repr major).data ++
        ('.' :: ((Nat.repr minor).data ++ ('.' :: ((Nat.repr patch).data ++ [])))) := by
    show ((Nat.repr major ++ "." ++ Nat.repr minor ++ "." ++ Nat.repr patch).data) = _
    simp [String.data_append]
  have hmatch := matchVersionAt_exact (Nat.repr major).data (Nat.repr minor).data
    (Nat.repr patch).data []
    hne1 hne2 hne3
    (List.all_eq_true.mp hd1) (List.all_eq_true.mp hd2) (List.all_eq_true.mp hd3)
    (by intro x hx; simp at hx)
  have hfirst : firstVersionMatch
      ((toString major ++ "." ++ toString minor ++ "." ++ toString patch).data) =
      some ((Nat.repr major).data, (Nat.repr minor).data, (Nat.repr patch).data) := by
    rw [hdata]
    refine firstVersionMatch_of_head ?_ hmatch
    intro hcontra
    exact hne1 (List.append_eq_nil.mp hcontra).1
  show (match firstVersionMatch
      ((toString major ++ "." ++ toString minor ++ "." ++ toString patch).data) with
    | none => none
    | some (ma, mi, pa) =>
      some (String.mk ma ++ padStart2 (String.mk mi) ++ padStart2 (String.mk pa))) = _
  rw [hfirst]
  simp only [mkData]
  rw [hp2, hp3]
  rfl

/-- C5 witness: the quantified part applied at concrete bounds-satisfying
inputs. -/
theorem claim5_witness :
    parseInterfaceVersion (toString 1 ++ "." ++ toString 15 ++ "." ++ toString 3) =
      some (toString 1 ++ pad2n 15 ++ pad2n 3) :=
  claim5_padding_inverse.1 1 15 3 (by decide) (by decide) (by decide)

/-! ### Claim C9 -/

/-- C9 counterexample: the claim says a non-numeric segment always yields the
not-a-number sentinel, but `parseInt("3a", 10)` parses the longest leading
digit prefix, so the non-numeric third segment of `"1.2.3a"` contributes `3`
and the result is the ordinary number `10203`, not NaN (the repository's own
documentation records `4.0.3a → 40003` for this computation). -/
theorem claim9_counterexample :
    parseVersionToNumber "1.2.3a" = some 10203 ∧ parseVersionToNumber "1.2.3a" ≠ none := by
  refine ⟨rfl, by decide⟩

/-- C9 (amended): `parseVersionToNumber` splits on `.`, takes the first three
segments (missing or empty segments defaulting to `"0"`), parses each with
`parseInt` semantics (longest leading digit prefix after optional sign), and
returns `major*10000 + minor*100 + patch`; the result is the NaN sentinel
exactly when one of the three defaulted segments has no parseable leading
integer (never an exception), so a partially numeric segment such as `"3a"`
contributes its digit prefix rather than NaN. -/
theorem claim9_parseVersionToNumber :
    parseVersionToNumber "1" = some 10000 ∧
    parseVersionToNumber "1.2" = some 10200 ∧
    parseVersionToNumber "1.15.3" = some 11503 ∧
    parseVersionToNumber "1.15.2" = some 11502 ∧
    parseVersionToNumber "2.0.0" = some 20000 ∧
    parseVersionToNumber "a.b.c" = none ∧
    parseVersionToNumber "1.a.3" = none ∧
    parseVersionToNumber "1.2.3a" = some 10203 ∧
    (∀ s : String,
      parseVersionToNumber s = none ↔
        (jsParseInt (segmentOrZero (jsSplitOnDot s) 0) = none ∨
         jsParseInt (segmentOrZero (jsSplitOnDot s) 1) = none ∨
         jsParseInt (segmentOrZero (jsSplitOnDot s) 2) = none)) := by
  refine ⟨rfl, rfl, rfl, rfl, rfl, rfl, rfl, rfl, ?_⟩
  intro s
  cases h0 : jsParseInt (segmentOrZero (jsSplitOnDot s) 0) with
  | none => simp [parseVersionToNumber, h0]
  | some major =>
    cases h1 : jsParseInt (segmentOrZero (jsSplitOnDot s) 1) with
    | none => simp [parseVersionToNumber, h0, h1]
    | some minor =>
      cases h2 : jsParseInt (segmentOrZero (jsSplitOnDot s) 2) with
      | none => simp [parseVersionToNumber, h0, h1, h2]
      | some patch => simp [parseVersionToNumber, h0, h1, h2]

/-! ### Claim C6 -/

/-- The "maximum-key entry is at index 0" property of a sorted bucket. -/
def MaxAtHead {α : Type} (key : α → Option Int) (l : List α) : Prop :=
  ∀ y, l.head? = some y → ∀ x ∈ l, ∃ kx ky, key x = some kx ∧ key y = some ky ∧ kx ≤ ky

theorem maxAtHead_of_pairwise {α : Type} (key : α → Option Int) {l : List α}
    (hsome : ∀ x ∈ l, (key x).isSome) (hp : List.Pairwise (DescRel key) l) :
    MaxAtHead key l := by
  intro y hy x hx
  cases l with
  | nil => simp at hy
  | cons a t =>
    have hya : y = a := by
      simp only [List.head?, Option.some.injEq] at hy
      exact hy.symm
    subst hya
    rcases List.mem_cons.mp hx with hx | hx
    · subst hx
      rcases Option.isSome_iff_exists.mp (hsome x (List.mem_cons_self x t)) with ⟨kx, hkx⟩
      exact ⟨kx, kx, hkx, hkx, le_refl kx⟩
    · rcases (List.pairwise_cons.mp hp).1 x hx with ⟨ky, kx, hky, hkx, hle⟩
      exact ⟨kx, ky, hkx, hky, hle⟩

/-- C6: grouping by variant is a stable partition (each bucket, before
sorting, is exactly the order-preserving filter of the input), and after the
in-place sort every bucket is ordered descending by its numeric key
(`parseInt(version)` in the addon-versions pipeline, the local
`parseVersion` number in the game-version-id pipeline), so each non-empty
bucket's maximum-key entry is at index 0.  The descending-order conclusions
assume the keys are actual numbers, as the claim's notion of a numeric
ordering key presupposes. -/
theorem claim6_grouping_and_sorting :
    (∀ (parsed : List ParsedVersion) (v : String) (bucket : List ParsedVersion),
      jsGet (groupByVariantObj parsed) v = some bucket →
      bucket = parsed.filter (fun x => x.variant = v)) ∧
    (∀ (parsed : List ParsedVersion) (v : String) (bucket : List ParsedVersion),
      (∀ x ∈ parsed, (interfaceKey x).isSome) →
      jsGet (processVersionsByVariant parsed) v = some bucket →
      bucket.Perm (parsed.filter (fun x => x.variant = v)) ∧
        List.Pairwise (DescRel interfaceKey) bucket ∧ MaxAtHead interfaceKey bucket) ∧
    (∀ (gameVersions : JsObj GameVersionData) (v : String) (bucket : List GvEntry),
      jsGet (gvVersionsByVariant gameVersions) v = some bucket →
      bucket = ((jsEntries gameVersions).filter (fun p => p.2.variant = v)).map gvEntryOfPair) ∧
    (∀ (gameVersions : JsObj GameVersionData) (v : String) (bucket : List GvEntry),
      (∀ p ∈ jsEntries gameVersions, (fgvParseVersion p.1).isSome) →
      jsGet (gvSortedBuckets gameVersions) v = some bucket →
      bucket.Perm (((jsEntries gameVersions).filter (fun p => p.2.variant = v)).map gvEntryOfPair) ∧
        List.Pairwise (DescRel GvEntry.sortOrder) bucket ∧
        MaxAtHead GvEntry.sortOrder bucket) := by
  refine ⟨?_, ?_, ?_, ?_⟩
  · intro parsed v bucket hget
    rw [groupByVariantObj_get] at hget
    by_cases he : (parsed.filter (fun x => x.variant = v)).isEmpty
    · rw [if_pos he] at hget
      exact absurd hget (by simp)
    · rw [if_neg he] at hget
      exact (Option.some.inj hget).symm
  · intro parsed v bucket hsome hget
    rw [processVersionsByVariant, jsGet_map, groupByVariantObj_get] at hget
    by_cases he : (parsed.filter (fun x => x.variant = v)).isEmpty
    · rw [if_pos he] at hget
      exact absurd hget (by simp)
    · rw [if_neg he] at hget
      simp only [Option.map_some'] at hget
      have hb : bucket = sortDescBy interfaceKey (parsed.filter (fun x => x.variant = v)) :=
        (Option.some.inj hget).symm
      subst hb
      have hsome2 : ∀ x ∈ parsed.filter (fun x => x.variant = v), (interfaceKey x).isSome :=
        fun x hx => hsome x (List.mem_filter.mp hx).1
      have hpw := sortDescBy_pairwise interfaceKey hsome2
      have hperm := sortDescBy_perm interfaceKey (parsed.filter (fun x => x.variant = v))
      exact ⟨hperm, hpw,
        maxAtHead_of_pairwise _ (fun x hx => hsome2 x (hperm.mem_iff.mp hx)) hpw⟩
  · intro gameVersions v bucket hget
    rw [gvVersionsByVariant_get] at hget
    by_cases he : ((jsEntries gameVersions).filter (fun p => p.2.variant = v)).isEmpty
    · rw [if_pos he] at hget
      exact absurd hget (by simp)
    · rw [if_neg he] at hget
      exact (Option.some.inj hget).symm
  · intro gameVersions v bucket hsome hget
    rw [gvSortedBuckets, jsGet_map, gvVersionsByVariant_get] at hget
    by_cases he : ((jsEntries gameVersions).filter (fun p => p.2.variant = v)).isEmpty
    · rw [if_pos he] at hget
      exact absurd hget (by simp)
    · rw [if_neg he] at hget
      simp only [Option.map_some'] at hget
      have hb : bucket = sortDescBy GvEntry.sortOrder
          (((jsEntries gameVersions).filter (fun p => p.2.variant = v)).map gvEntryOfPair) :=
        (Option.some.inj hget).symm
      subst hb
      have hsome2 : ∀ x ∈ ((jsEntries gameVersions).filter
          (fun p => p.2.variant = v)).map gvEntryOfPair, (GvEntry.sortOrder x).isSome := by
        intro x hx
        rcases List.mem_map.mp hx with ⟨p, hp, hpx⟩
        have := hsome p (List.mem_filter.mp hp).1
        rw [← hpx]
        exact this
      have hpw := sortDescBy_pairwise GvEntry.sortOrder hsome2
      have hperm := sortDescBy_perm GvEntry.sortOrder
        (((jsEntries gameVersions).filter (fun p => p.2.variant = v)).map gvEntryOfPair)
      exact ⟨hperm, hpw,
        maxAtHead_of_pairwise _ (fun x hx => hsome2 x (hperm.mem_iff.mp hx)) hpw⟩

set_option maxRecDepth 16000 in
/-- C6 witness: the four parts applied to concrete two-variant inputs. -/
theorem claim6_witness :
    (([⟨"11503", "1.15.3", "classic_era", 67408, "WoW Classic Era", "wow-classic-era"⟩,
       ⟨"11502", "1.15.2", "classic_era", 67408, "WoW Classic Era", "wow-classic-era"⟩] :
         List ParsedVersion) =
      List.filter (fun x => x.variant = "classic_era")
        [⟨"11503", "1.15.3", "classic_era", 67408, "WoW Classic Era", "wow-classic-era"⟩,
         ⟨"110200", "11.2.0", "retail", 517, "WoW Retail", "wow-retail"⟩,
         ⟨"11502", "1.15.2", "classic_era", 67408, "WoW Classic Era", "wow-classic-era"⟩]) ∧
    (([⟨"11503", "1.15.3", "classic_era", 67408, "WoW Classic Era", "wow-classic-era"⟩,
       ⟨"11502", "1.15.2", "classic_era", 67408, "WoW Classic Era", "wow-classic-era"⟩] :
         List ParsedVersion).Perm
      (List.filter (fun x => x.variant = "classic_era")
        [⟨"11503", "1.15.3", "classic_era", 67408, "WoW Classic Era", "wow-classic-era"⟩,
         ⟨"110200", "11.2.0", "retail", 517, "WoW Retail", "wow-retail"⟩,
         ⟨"11502", "1.15.2", "classic_era", 67408, "WoW Classic Era", "wow-classic-era"⟩]) ∧
      List.Pairwise (DescRel interfaceKey)
        [⟨"11503", "1.15.3", "classic_era", 67408, "WoW Classic Era", "wow-classic-era"⟩,
         ⟨"11502", "1.15.2", "classic_era", 67408, "WoW Classic Era", "wow-classic-era"⟩] ∧
      MaxAtHead interfaceKey
        [⟨"11503", "1.15.3", "classic_era", 67408, "WoW Classic Era", "wow-classic-era"⟩,
         ⟨"11502", "1.15.2", "classic_era", 67408, "WoW Classic Era", "wow-classic-era"⟩]) ∧
    (([⟨"1.15.3", 12919, some 11503⟩, ⟨"1.15.2", 12918, some 11502⟩] : List GvEntry) =
      (List.filter (fun p => p.2.variant = "classic_era")
        (jsEntries [("1.15.3", ⟨12919, "classic_era"⟩), ("1.15.2", ⟨12918, "classic_era"⟩)])).map
        gvEntryOfPair) ∧
    (([⟨"1.15.3", 12919, some 11503⟩, ⟨"1.15.2", 12918, some 11502⟩] : List GvEntry).Perm
      ((List.filter (fun p => p.2.variant = "classic_era")
        (jsEntries [("1.15.3", ⟨12919, "classic_era"⟩), ("1.15.2", ⟨12918, "classic_era"⟩)])).map
        gvEntryOfPair) ∧
      List.Pairwise (DescRel GvEntry.sortOrder)
        [⟨"1.15.3", 12919, some 11503⟩, ⟨"1.15.2", 12918, some 11502⟩] ∧
      MaxAtHead GvEntry.sortOrder
        [⟨"1.15.3", 12919, some 11503⟩, ⟨"1.15.2", 12918, some 11502⟩]) :=
  ⟨claim6_grouping_and_sorting.1
     [⟨"11503", "1.15.3", "classic_era", 67408, "WoW Classic Era", "wow-classic-era"⟩,
      ⟨"110200", "11.2.0", "retail", 517, "WoW Retail", "wow-retail"⟩,
      ⟨"11502", "1.15.2", "classic_era", 67408, "WoW Classic Era", "wow-classic-era"⟩]
     "classic_era"
     [⟨"11503", "1.15.3", "classic_era", 67408, "WoW Classic Era", "wow-classic-era"⟩,
      ⟨"11502", "1.15.2", "classic_era", 67408, "WoW Classic Era", "wow-classic-era"⟩] rfl,
   claim6_grouping_and_sorting.2.1
     [⟨"11503", "1.15.3", "classic_era", 67408, "WoW Classic Era", "wow-classic-era"⟩,
      ⟨"110200", "11.2.0", "retail", 517, "WoW Retail", "wow-retail"⟩,
      ⟨"11502", "1.15.2", "classic_era", 67408, "WoW Classic Era", "wow-classic-era"⟩]
     "classic_era"
     [⟨"11503", "1.15.3", "classic_era", 67408, "WoW Classic Era", "wow-classic-era"⟩,
      ⟨"11502", "1.15.2", "classic_era", 67408, "WoW Classic Era", "wow-classic-era"⟩]
     (by decide) rfl,
   claim6_grouping_and_sorting.2.2.1
     [("1.15.3", ⟨12919, "classic_era"⟩), ("1.15.2", ⟨12918, "classic_era"⟩)] "classic_era"
     [⟨"1.15.3", 12919, some 11503⟩, ⟨"1.15.2", 12918, some 11502⟩] rfl,
   claim6_grouping_and_sorting.2.2.2
     [("1.15.3", ⟨12919, "classic_era"⟩), ("1.15.2", ⟨12918, "classic_era"⟩)] "classic_era"
     [⟨"1.15.3", 12919, some 11503⟩, ⟨"1.15.2", 12918, some 11502⟩] (by decide) rfl⟩

/-! ### Claim C7 -/

theorem foldl_jsSet_of_nodup {α β : Type} (keyF : α → String) (valF : α → β) :
    ∀ (l : List α) (acc : JsObj β),
      ((acc.map Prod.fst) ++ l.map keyF).Nodup →
      l.foldl (fun m x => jsSet m (keyF x) (valF x)) acc =
        acc ++ l.map (fun x => (keyF x, valF x)) := by
  intro l
  induction l with
  | nil =>
    intro acc h
    simp
  | cons x l ih =>
    intro acc h
    rw [List.foldl_cons]
    have hx_not : keyF x ∉ acc.map Prod.fst := by
      rcases List.nodup_append.mp h with ⟨h1, h2, hdisj⟩
      intro hmem
      exact hdisj hmem (by simp)
    rw [jsSet_of_not_mem (valF x) hx_not]
    have hkeys : ((acc ++ [(keyF x, valF x)]).map Prod.fst ++ l.map keyF).Nodup := by
      simpa [List.append_assoc] using h
    rw [ih _ hkeys]
    simp [List.append_assoc]

theorem jsEntries_allIndex_eq_of_perm {β : Type} {m1 m2 : List (String × β)}
    (hperm : m1.Perm m2) (hidx : ∀ p ∈ m1, isArrayIndexKey p.1 = true)
    (hnodup : (m1.map (fun p => keyNat p.1)).Nodup) :
    jsEntries m1 = jsEntries m2 := by
  have hidx2 : ∀ p ∈ m2, isArrayIndexKey p.1 = true :=
    fun p hp => hidx p (hperm.mem_iff.mpr hp)
  unfold jsEntries
  rw [List.filter_eq_self.mpr hidx, List.filter_eq_self.mpr hidx2]
  have hnil1 : m1.filter (fun p => !isArrayIndexKey p.1) = [] := by
    rw [List.filter_eq_nil_iff]
    intro p hp
    simp [hidx p hp]
  have hnil2 : m2.filter (fun p => !isArrayIndexKey p.1) = [] := by
    rw [List.filter_eq_nil_iff]
    intro p hp
    simp [hidx2 p hp]
  rw [hnil1, hnil2, List.append_nil, List.append_nil]
  exact sortAscBy_eq_of_perm (fun p => keyNat p.1) hperm hnodup

/-- C7 counterexample: with duplicate id keys in the previous document the
comparison map keeps the last-seen entry, so permuting the persisted
releases array flips the result of `hasGameVersionsChanged`: the claim's
"same boolean for every permutation" is false. -/
theorem claim7_counterexample :
    (([⟨"517", "2.0.0", "retail"⟩, ⟨"517", "1.0.0", "retail"⟩] : List OldGameRelease).Perm
      [⟨"517", "1.0.0", "retail"⟩, ⟨"517", "2.0.0", "retail"⟩]) ∧
    hasGameVersionsChanged
        (some ⟨some [⟨"517", "1.0.0", "retail"⟩, ⟨"517", "2.0.0", "retail"⟩]⟩)
        [("2.0.0", ⟨517, "retail"⟩)] = false ∧
    hasGameVersionsChanged
        (some ⟨some [⟨"517", "2.0.0", "retail"⟩, ⟨"517", "1.0.0", "retail"⟩]⟩)
        [("2.0.0", ⟨517, "retail"⟩)] = true :=
  ⟨List.Perm.swap _ _ _, by decide, by decide⟩

/-- C7 (amended): `hasGameVersionsChanged` depends only on the
id-to-`{originalVersion, variant}` mapping whenever the previous document's
releases carry pairwise-distinct id keys, each a canonical array-index
string (which is what the pipeline itself persists, ids being small
integers rendered by `String(id)`): permuting the releases array then never
changes the result.  With duplicate ids the last-seen entry silently wins
and the result can depend on the order (see the counterexample). -/
theorem claim7_order_insensitive :
    ∀ (releases1 releases2 : List OldGameRelease) (gameVersions : JsObj GameVersionData),
      releases1.Perm releases2 →
      ((releases1.map (fun r => keyNat r.version)).Nodup) →
      (∀ r ∈ releases1, isArrayIndexKey r.version = true) →
      hasGameVersionsChanged (some ⟨some releases1⟩) gameVersions =
        hasGameVersionsChanged (some ⟨some releases2⟩) gameVersions := by
  intro r1 r2 gv hperm hnodup hidx
  have hmapmap : ∀ (l : List OldGameRelease),
      l.map (fun r => keyNat r.version) = (l.map OldGameRelease.version).map keyNat := by
    intro l
    rw [List.map_map]
    rfl
  have hkeys1 : (r1.map OldGameRelease.version).Nodup := by
    refine List.Nodup.of_map keyNat ?_
    rw [← hmapmap]
    exact hnodup
  have hkeys2 : (r2.map OldGameRelease.version).Nodup := ((hperm.map _).nodup_iff).mp hkeys1
  have hm1 : oldVersionsMap r1 =
      r1.map (fun r => (r.version, (⟨r.originalVersion, r.variant⟩ : OrigVariant))) := by
    unfold oldVersionsMap
    refine foldl_jsSet_of_nodup _ _ r1 [] ?_
    simpa [hmapmap] using hkeys1
  have hm2 : oldVersionsMap r2 =
      r2.map (fun r => (r.version, (⟨r.originalVersion, r.variant⟩ : OrigVariant))) := by
    unfold oldVersionsMap
    refine foldl_jsSet_of_nodup _ _ r2 [] ?_
    simpa [hmapmap] using hkeys2
  have hje : jsEntries (oldVersionsMap r1) = jsEntries (oldVersionsMap r2) := by
    rw [hm1, hm2]
    refine jsEntries_allIndex_eq_of_perm (hperm.map _) ?_ ?_
    · intro p hp
      rcases List.mem_map.mp hp with ⟨r, hr, hrp⟩
      rw [← hrp]
      exact hidx r hr
    · rw [List.map_map]
      exact hnodup
  have hs : stringifyOVMap (oldVersionsMap r1) = stringifyOVMap (oldVersionsMap r2) := by
    unfold stringifyOVMap
    rw [hje]
  simp only [hasGameVersionsChanged, hs]

/-- C7 witness: the amended statement applied to a concrete duplicate-free
previous document and a transposition of its releases. -/
theorem claim7_witness :
    hasGameVersionsChanged
        (some ⟨some [⟨"517", "1.0.0", "retail"⟩, ⟨"67408", "1.15.3", "classic_era"⟩]⟩) [] =
      hasGameVersionsChanged
        (some ⟨some [⟨"67408", "1.15.3", "classic_era"⟩, ⟨"517", "1.0.0", "retail"⟩]⟩) [] :=
  claim7_order_insensitive
    [⟨"517", "1.0.0", "retail"⟩, ⟨"67408", "1.15.3", "classic_era"⟩]
    [⟨"67408", "1.15.3", "classic_era"⟩, ⟨"517", "1.0.0", "retail"⟩] []
    (List.Perm.swap _ _ _) (by decide) (by decide)

/-! ### Claim C8 -/

/-- C8: in the game-version-id pipeline, each variant bucket contributes a
contiguous segment of the releases array, and within a bucket of size `n`
(sorted newest-first) the entry at 0-indexed position `i` is assigned the
synthetic timestamp `now − (n − i − 1)` days (86400000 ms per day), rendered
through `Date#toISOString` from the wall-clock `now` of the run. -/
theorem claim8_synthetic_timestamps :
    ∀ (gameVersions : JsObj GameVersionData) (now : Int) (v : String) (bucket : List GvEntry),
      jsGet (gvSortedBuckets gameVersions) v = some bucket →
      (∃ pre post, gvRenovateReleases gameVersions now =
        pre ++ (bucketReleases v bucket now ++ post)) ∧
      (∀ (i : Nat) (hi : i < bucket.length),
        (bucketReleases v bucket now).get? i =
          some { version := toString (bucket.get ⟨i, hi⟩).gameVersionId
                 originalVersion := (bucket.get ⟨i, hi⟩).version
                 variant := v
                 releaseTimestamp :=
                   jsToISOString (now - ((bucket.length : Int) - i - 1) * 86400000) }) := by
  intro gameVersions now v bucket hget
  constructor
  · have hmem : (v, bucket) ∈ jsEntries (gvSortedBuckets gameVersions) :=
      (jsEntries_perm _).mem_iff.mpr (jsGet_eq_some_mem hget)
    rcases List.append_of_mem hmem with ⟨s, t, hst⟩
    refine ⟨(s.map (fun p => bucketReleases p.1 p.2 now)).flatten,
            (t.map (fun p => bucketReleases p.1 p.2 now)).flatten, ?_⟩
    unfold gvRenovateReleases
    rw [foldl_append_flatten, hst]
    simp [List.map_append, List.flatten_append]
  · intro i hi
    show (mapWithIndexFrom _ 0 bucket).get? i = _
    rw [mapWithIndexFrom_get?, List.get?_eq_get hi]
    simp

set_option maxRecDepth 16000 in
/-- C8 witness: the statement applied to a concrete two-entry bucket,
checking both synthetic timestamps. -/
theorem claim8_witness :
    ((∃ pre post,
      gvRenovateReleases
          [("1.15.3", ⟨12919, "classic_era"⟩), ("1.15.2", ⟨12918, "classic_era"⟩)] 86400000 =
        pre ++ (bucketReleases "classic_era"
          [⟨"1.15.3", 12919, some 11503⟩, ⟨"1.15.2", 12918, some 11502⟩] 86400000 ++ post)) ∧
    (∀ (i : Nat)
        (hi : i < ([⟨"1.15.3", 12919, some 11503⟩,
          ⟨"1.15.2", 12918, some 11502⟩] : List GvEntry).length),
      (bucketReleases "classic_era"
          [⟨"1.15.3", 12919, some 11503⟩, ⟨"1.15.2", 12918, some 11502⟩] 86400000).get? i =
        some { version := toString (([⟨"1.15.3", 12919, some 11503⟩,
                 ⟨"1.15.2", 12918, some 11502⟩] : List GvEntry).get ⟨i, hi⟩).gameVersionId
               originalVersion := (([⟨"1.15.3", 12919, some 11503⟩,
                 ⟨"1.15.2", 12918, some 11502⟩] : List GvEntry).get ⟨i, hi⟩).version
               variant := "classic_era"
               releaseTimestamp :=
                 jsToISOString (86400000 -
                   ((([⟨"1.15.3", 12919, some 11503⟩,
                     ⟨"1.15.2", 12918, some 11502⟩] : List GvEntry).length : Int) - i - 1) *
                     86400000) })) :=
  claim8_synthetic_timestamps
    [("1.15.3", ⟨12919, "classic_era"⟩), ("1.15.2", ⟨12918, "classic_era"⟩)] 86400000
    "classic_era" [⟨"1.15.3", 12919, some 11503⟩, ⟨"1.15.2", 12918, some 11502⟩] rfl

/-! ### Claim C10 -/

/-- The truthiness gate of `processGameVersionData`: the record and all of
`name`, `id`, `gameVersionTypeID` must be present and truthy. -/
def gvUsable : Option RawGameVersion → Bool
  | some ⟨some name, some id, some gameVersionTypeID⟩ =>
    if name ≠ "" ∧ id ≠ 0 ∧ gameVersionTypeID ≠ 0 then true else false
  | _ => false

theorem processGameVersionStep_not_usable (versionTypeLookup : Int → Option VersionType)
    (acc : JsObj GameVersionData) {x : Option RawGameVersion} (h : gvUsable x = false) :
    processGameVersionStep versionTypeLookup acc x = acc := by
  match x with
  | none => rfl
  | some ⟨none, i, t⟩ => rfl
  | some ⟨some name, none, t⟩ => rfl
  | some ⟨some name, some id, none⟩ => rfl
  | some ⟨some name, some id, some tid⟩ =>
    have hc : ¬ (name ≠ "" ∧ id ≠ 0 ∧ tid ≠ 0) := by
      intro hcon
      rw [gvUsable, if_pos hcon] at h
      simp at h
    simp [processGameVersionStep, hc]

theorem foldl_preserves_keys_nodup {β γ : Type} (step : JsObj β → γ → JsObj β)
    (hstep : ∀ acc x, step acc x = acc ∨ ∃ k v, step acc x = jsSet acc k v) :
    ∀ (l : List γ) (acc : JsObj β), (acc.map Prod.fst).Nodup →
      ((l.foldl step acc).map Prod.fst).Nodup := by
  intro l
  induction l with
  | nil =>
    intro acc h
    simpa using h
  | cons x l ih =>
    intro acc h
    rw [List.foldl_cons]
    refine ih _ ?_
    rcases hstep acc x with h1 | ⟨k, v, h1⟩
    · rw [h1]
      exact h
    · rw [h1]
      exact nodup_keys_jsSet k v h

theorem processGameVersionData_keys_nodup (data : Option (List (Option RawGameVersion)))
    (versionTypeLookup : Int → Option VersionType) :
    ((processGameVersionData data versionTypeLookup).map Prod.fst).Nodup := by
  cases data with
  | none => simp [processGameVersionData]
  | some records =>
    refine foldl_preserves_keys_nodup (processGameVersionStep versionTypeLookup) ?_ records []
      (by simp)
    intro acc x
    match x with
    | none => exact Or.inl rfl
    | some ⟨none, i, t⟩ => exact Or.inl rfl
    | some ⟨some name, none, t⟩ => exact Or.inl rfl
    | some ⟨some name, some id, none⟩ => exact Or.inl rfl
    | some ⟨some name, some id, some tid⟩ =>
      by_cases hc : name ≠ "" ∧ id ≠ 0 ∧ tid ≠ 0
      · exact Or.inr ⟨name, ⟨id, variantFor versionTypeLookup tid⟩,
          by simp [processGameVersionStep, hc]⟩
      · exact Or.inl (by simp [processGameVersionStep, hc])

theorem gvRenovateReleases_origVersions_perm (gameVersions : JsObj GameVersionData) (now : Int) :
    ((gvRenovateReleases gameVersions now).map GameRelease.originalVersion).Perm
      (gameVersions.map Prod.fst) := by
  have h1 : gvRenovateReleases gameVersions now =
      ((jsEntries (gvSortedBuckets gameVersions)).map
        (fun p => bucketReleases p.1 p.2 now)).flatten := by
    unfold gvRenovateReleases
    rw [foldl_append_flatten]
    rfl
  rw [h1, List.map_flatten, List.map_map]
  have h2 : ((jsEntries (gvSortedBuckets gameVersions)).map
      (List.map GameRelease.originalVersion ∘ fun p => bucketReleases p.1 p.2 now)) =
      ((jsEntries (gvSortedBuckets gameVersions)).map Prod.snd).map
        (List.map GvEntry.version) := by
    rw [List.map_map]
    refine List.map_congr_left ?_
    intro p hp
    show (bucketReleases p.1 p.2 now).map GameRelease.originalVersion = p.2.map GvEntry.version
    unfold bucketReleases mapWithIndex
    rw [map_mapWithIndexFrom]
    exact mapWithIndexFrom_const GvEntry.version 0 p.2
  rw [h2, ← List.map_flatten]
  have hflat : ((jsEntries (gvSortedBuckets gameVersions)).map Prod.snd).flatten.Perm
      ((jsEntries gameVersions).map gvEntryOfPair) := by
    refine (((jsEntries_perm (gvSortedBuckets gameVersions)).map Prod.snd).flatten).trans ?_
    refine (map_sort_flatten_perm GvEntry.sortOrder (gvVersionsByVariant gameVersions)).trans ?_
    have h := bucketFold_flatten_perm (fun p : String × GameVersionData => p.2.variant)
      gvEntryOfPair (jsEntries gameVersions) []
    simpa using h
  refine (hflat.map GvEntry.version).trans ?_
  rw [List.map_map]
  have h3 : ((jsEntries gameVersions).map (GvEntry.version ∘ gvEntryOfPair)) =
      (jsEntries gameVersions).map Prod.fst := List.map_congr_left (fun p _ => rfl)
  rw [h3]
  exact (jsEntries_perm gameVersions).map Prod.fst

/-- C10: `processGameVersionData` keys its result by the record's version
name: a record is stored only when the record and its `name`, `id` and
`gameVersionTypeID` fields are all present and truthy (a non-truthy record
contributes nothing, so a record with id 0 or empty name is dropped rather
than tagged); when two retained records share a name, the later record's
`{id, variant}` silently overwrites the earlier one (appending a usable
record last makes its value the stored one); and since the resulting object
has pairwise-distinct keys, the releases emitted from it carry
pairwise-distinct `originalVersion` values. -/
theorem claim10_keying_and_truthiness :
    (∀ (d1 d2 : List (Option RawGameVersion)) (x : Option RawGameVersion)
        (versionTypeLookup : Int → Option VersionType),
      gvUsable x = false →
      processGameVersionData (some (d1 ++ x :: d2)) versionTypeLookup =
        processGameVersionData (some (d1 ++ d2)) versionTypeLookup) ∧
    (∀ (records : List (Option RawGameVersion)) (name : String) (id tid : Int)
        (versionTypeLookup : Int → Option VersionType),
      name ≠ "" → id ≠ 0 → tid ≠ 0 →
      jsGet (processGameVersionData
          (some (records ++ [some ⟨some name, some id, some tid⟩])) versionTypeLookup) name =
        some ⟨id, variantFor versionTypeLookup tid⟩) ∧
    (∀ (data : Option (List (Option RawGameVersion)))
        (versionTypeLookup : Int → Option VersionType) (now : Int),
      ((gvRenovateReleases (processGameVersionData data versionTypeLookup) now).map
        GameRelease.originalVersion).Nodup) := by
  refine ⟨?_, ?_, ?_⟩
  · intro d1 d2 x versionTypeLookup h
    simp only [processGameVersionData, List.foldl_append, List.foldl_cons]
    rw [processGameVersionStep_not_usable versionTypeLookup _ h]
  · intro records name id tid versionTypeLookup hname hid htid
    simp only [processGameVersionData, List.foldl_append, List.foldl_cons, List.foldl_nil]
    simp only [processGameVersionStep]
    rw [if_pos ⟨hname, hid, htid⟩]
    exact jsGet_jsSet_self _ _ _
  · intro data versionTypeLookup now
    exact ((gvRenovateReleases_origVersions_perm
        (processGameVersionData data versionTypeLookup) now).nodup_iff).mpr
      (processGameVersionData_keys_nodup data versionTypeLookup)

set_option maxRecDepth 16000 in
/-- C10 witness: the three parts applied at concrete inputs (a falsy record
with empty name, a usable record appended last, and a small payload with a
duplicate name whose releases still carry distinct originalVersion
values). -/
theorem claim10_witness :
    processGameVersionData (some ([] ++ (some ⟨some "", some 1, some 517⟩) :: []))
        versionTypeMap =
      processGameVersionData (some ([] ++ [])) versionTypeMap ∧
    jsGet (processGameVersionData (some ([] ++ [some ⟨some "1.15.3", some 12919, some 67408⟩]))
        versionTypeMap) "1.15.3" = some ⟨12919, variantFor versionTypeMap 67408⟩ ∧
    ((gvRenovateReleases
        (processGameVersionData
          (some [some ⟨some "1.15.3", some 12919, some 67408⟩,
                 some ⟨some "11.2.0", some 13433, some 517⟩,
                 some ⟨some "1.15.3", some 99999, some 67408⟩]) versionTypeMap) 0).map
      GameRelease.originalVersion).Nodup :=
  ⟨claim10_keying_and_truthiness.1 [] [] (some ⟨some "", some 1, some 517⟩) versionTypeMap rfl,
   claim10_keying_and_truthiness.2.1 [] "1.15.3" 12919 67408 versionTypeMap
     (by decide) (by decide) (by decide),
   claim10_keying_and_truthiness.2.2
     (some [some ⟨some "1.15.3", some 12919, some 67408⟩,
            some ⟨some "11.2.0", some 13433, some 517⟩,
            some ⟨some "1.15.3", some 99999, some 67408⟩]) versionTypeMap 0⟩

end WowData
